import Mathlib

/-!
Shallow embedding of the NetPulse dispatch/coordination core.

The definitions below translate, entity by entity, the Python sources:
  * `src/netpulse/backend/main.py`       — main server: task fan-out, status aggregation
  * `src/agent_server/server_agent.py`   — regional agent server: agents, queue, poll/submit
  * `src/netpulse_main_server/backend/main.py` — liveness sweep (`cleanup_dead_agents`)

Python dicts are modelled as association lists (`List (String × α)`) with
dict semantics (lookup/overwrite of the first occurrence of a key; fresh keys
are appended, matching insertion order).  Timestamps are integers (seconds).
Opaque result payloads are string maps.
-/

namespace NetPulse

/-- Opaque result record (a JSON object), modelled as a string map. -/
def ResultData := List (String × String)
deriving Repr, DecidableEq

/-- Dict lookup: value of the first occurrence of a key. -/
def lookupKV {α : Type} : List (String × α) → String → Option α
  | [], _ => none
  | (k, v) :: rest, key => if k = key then some v else lookupKV rest key

/-- Dict write: overwrite the first occurrence of the key, else append. -/
def setKV {α : Type} : List (String × α) → String → α → List (String × α)
  | [], key, v => [(key, v)]
  | (k, w) :: rest, key, v =>
    if k = key then (k, v) :: rest else (k, w) :: setKV rest key v

/-- In-place mutation of the value stored under a key (first occurrence). -/
def updFirst {α : Type} : List (String × α) → String → (α → α) → List (String × α)
  | [], _, _ => []
  | (k, w) :: rest, key, f =>
    if k = key then (k, f w) :: rest else (k, w) :: updFirst rest key f

/-- Dict deletion of the first occurrence of a key. -/
def eraseKV {α : Type} : List (String × α) → String → List (String × α)
  | [], _ => []
  | (k, w) :: rest, key => if k = key then rest else (k, w) :: eraseKV rest key

/-! ## Data model -/

/-- Task / sub-task record, as stored in Redis (`task:<id>` keys of
`src/netpulse/backend/main.py`) and in the agent server's `tasks_queue`. -/
structure Task where
  id : String
  parent_task_id : Option String
  target : String
  check_type : String
  country : String
  status : String
  created_at : Nat
  assigned_agent : Option String
  result : Option ResultData
  agent_server : String
deriving Repr, DecidableEq

/-- Agent record of the regional agent server (`agents_db` values,
`src/agent_server/server_agent.py`, `AgentManager.create_agent`). -/
structure Agent where
  id : String
  name : String
  country : String
  token : String
  capabilities : List String
  status : String
  current_tasks : Int
  max_tasks : Int
  created_at : Nat
  last_heartbeat : Nat
deriving Repr, DecidableEq

/-- Mutable state of the regional agent server
(`agents_db`, `tasks_queue`, `task_results` in `server_agent.py`). -/
structure AgState where
  agents_db : List (String × Agent)
  tasks_queue : List Task
  task_results : List (String × ResultData)
deriving Repr, DecidableEq

/-- `CONFIG["token"]` of the agent server. -/
def AGENT_SERVER_TOKEN : String := "ru-server-secret-token-12345"

/-- `CONFIG["country"]` of the agent server. -/
def AGENT_SERVER_COUNTRY : String := "ru"

/-- Default capability set of `AgentManager.create_agent`. -/
def DEFAULT_CAPABILITIES : List String := ["http", "ping", "tcp", "dns"]

/-! ## Agent server operations (`src/agent_server/server_agent.py`) -/

/-- `AgentManager.verify_agent`: the agent exists and its token matches. -/
def verify_agent (s : AgState) (agent_id token : String) : Bool :=
  match lookupKV s.agents_db agent_id with
  | some a => a.token == token
  | none => false

/-- The scan predicate of `TaskManager.get_pending_task_for_agent`:
`task.get("status") == "pending" and task.get("check_type") in agent_capabilities`. -/
def taskEligible (caps : List String) (t : Task) : Bool :=
  t.status == "pending" && caps.contains t.check_type

/-- `TaskManager.get_pending_task_for_agent`: first queue entry, in insertion
order, that is pending and whose check type the capability list contains. -/
def get_pending_task_for_agent (caps : List String) : List Task → Option Task
  | [] => none
  | t :: ts =>
    if taskEligible caps t then some t else get_pending_task_for_agent caps ts

/-- The per-task mutation of `TaskManager.update_task_status`: set the status
and, when a truthy `agent_id` is passed, the assigned agent. -/
def applyAssign (t : Task) (status : String) (agent_id : Option String) : Task :=
  { t with
    status := status,
    assigned_agent :=
      match agent_id with
      | some a => if a = "" then t.assigned_agent else some a
      | none => t.assigned_agent }

/-- `TaskManager.update_task_status`: mutate the first queue entry bearing the
given id (the loop breaks after the first match). -/
def update_task_status (q : List Task) (task_id status : String)
    (agent_id : Option String) : List Task :=
  match q with
  | [] => []
  | t :: ts =>
    if t.id = task_id then applyAssign t status agent_id :: ts
    else t :: update_task_status ts task_id status agent_id

/-- Queue entries strictly before the first eligible one (used to express the
in-place aliasing of the handler's returned record). -/
def queuePartBeforeElig (caps : List String) : List Task → List Task
  | [] => []
  | t :: ts =>
    if taskEligible caps t then [] else t :: queuePartBeforeElig caps ts

/-- Outcome of the `/agent/pending-task` endpoint. -/
inductive PollRes where
  | unauthorized
  | offline
  | busy
  | task (t : Task)
  | no_tasks
deriving Repr, DecidableEq

/-- Outcome of the `/agent/submit-result` endpoint. -/
inductive SubmitRes where
  | unauthorized
  | success
deriving Repr, DecidableEq

/-- `/agent/pending-task` (`get_pending_task`): verify credentials, gate on
online status and capacity, then scan-and-assign the first eligible task.
The handler returns the queue object it mutated in place: when an earlier
queue entry shares the found task's id, `update_task_status` rewrote that
earlier entry instead, and the returned record is the found one unchanged. -/
def get_pending_task (s : AgState) (agent_id agent_token : String) (now : Nat) :
    PollRes × AgState :=
  if verify_agent s agent_id agent_token then
    match lookupKV s.agents_db agent_id with
    | none => (.offline, s)
    | some a =>
      if a.status != "online" then (.offline, s)
      else if a.current_tasks ≥ a.max_tasks then (.busy, s)
      else
        match get_pending_task_for_agent a.capabilities s.tasks_queue with
        | some t =>
          let q' := update_task_status s.tasks_queue t.id "assigned" (some agent_id)
          let db' := updFirst s.agents_db agent_id
            (fun b => { b with current_tasks := b.current_tasks + 1, last_heartbeat := now })
          let ret :=
            if (queuePartBeforeElig a.capabilities s.tasks_queue).any
                (fun u => u.id == t.id) then t
            else applyAssign t "assigned" (some agent_id)
          (.task ret, { s with tasks_queue := q', agents_db := db' })
        | none => (.no_tasks, s)
  else (.unauthorized, s)

/-- `/agent/submit-result` (`submit_result`): verify credentials, mark the
task completed, decrement the agent's load floored at 0, store the result. -/
def submit_result (s : AgState) (task_id agent_id agent_token : String)
    (result : ResultData) : SubmitRes × AgState :=
  if verify_agent s agent_id agent_token then
    let q' := update_task_status s.tasks_queue task_id "completed" none
    let db' := updFirst s.agents_db agent_id
      (fun a => { a with current_tasks := max 0 (a.current_tasks - 1) })
    let res' := setKV s.task_results task_id result
    (.success, { agents_db := db', tasks_queue := q', task_results := res' })
  else (.unauthorized, s)

/-- The agent record built by `AgentManager.create_agent` (the random id and
token are parameters of the model). -/
def create_agent_record (agent_id agent_token name : String)
    (capabilities : Option (List String)) (now : Nat) : Agent :=
  { id := agent_id, name := name, country := AGENT_SERVER_COUNTRY,
    token := agent_token,
    capabilities := capabilities.getD DEFAULT_CAPABILITIES,
    status := "online", current_tasks := 0, max_tasks := 5,
    created_at := now, last_heartbeat := now }

/-- `/create-agent`: server-token gated creation of a fresh agent. -/
def create_agent (s : AgState) (server_token agent_id agent_token name : String)
    (capabilities : Option (List String)) (now : Nat) : AgState :=
  if server_token = AGENT_SERVER_TOKEN then
    let a := create_agent_record agent_id agent_token name capabilities now
    { s with agents_db := setKV s.agents_db agent_id a }
  else s

/-- `/assign-task`: server-token gated enqueue; the incoming record's status
is forced to `pending` and its country to the server's own. -/
def assign_task (s : AgState) (t : Task) (server_token : String) : AgState :=
  if server_token = AGENT_SERVER_TOKEN then
    let t' := { t with status := "pending", country := AGENT_SERVER_COUNTRY }
    { s with tasks_queue := s.tasks_queue ++ [t'] }
  else s

/-- `/agent/heartbeat`: verify credentials, set the agent online and refresh
its heartbeat. -/
def agent_heartbeat (s : AgState) (agent_id agent_token : String) (now : Nat) :
    AgState :=
  if verify_agent s agent_id agent_token then
    let db' := updFirst s.agents_db agent_id
      (fun a => { a with status := "online", last_heartbeat := now })
    { s with agents_db := db' }
  else s

/-- `/stop-agent` (`AgentManager.stop_agent`): server-token gated status flip
to `stopped`. -/
def stop_agent (s : AgState) (agent_id server_token : String) : AgState :=
  if server_token = AGENT_SERVER_TOKEN then
    let db' := updFirst s.agents_db agent_id (fun a => { a with status := "stopped" })
    { s with agents_db := db' }
  else s

/-! ## Operation sequences over the agent server -/

/-- One inbound call to the agent server. -/
inductive AOp where
  | createAgent (server_token agent_id agent_token name : String)
      (capabilities : Option (List String)) (now : Nat)
  | assignTask (t : Task) (server_token : String)
  | poll (agent_id agent_token : String) (now : Nat)
  | submit (task_id agent_id agent_token : String) (result : ResultData)
  | heartbeat (agent_id agent_token : String) (now : Nat)
  | stopAgent (agent_id server_token : String)

/-- State transition of a single call. -/
def stepOp (s : AgState) : AOp → AgState
  | .createAgent st aid atok name caps now => create_agent s st aid atok name caps now
  | .assignTask t st => assign_task s t st
  | .poll aid tok now => (get_pending_task s aid tok now).2
  | .submit tid aid tok r => (submit_result s tid aid tok r).2
  | .heartbeat aid tok now => agent_heartbeat s aid tok now
  | .stopAgent aid st => stop_agent s aid st

/-- Run a sequence of calls. -/
def runOps (s : AgState) (ops : List AOp) : AgState := ops.foldl stepOp s

/-- Whether a call is a `PollTask` or a `SubmitResult`. -/
def isPollOrSubmit : AOp → Bool
  | .poll _ _ _ => true
  | .submit _ _ _ _ => true
  | _ => false

/-! ## Main server (`src/netpulse/backend/main.py`) -/

/-- The configured agent servers (`AGENT_SERVERS` keys). -/
def AGENT_SERVERS_keys : List String := ["ru"]

/-- The fixed check-type catalog (`all_check_types` in `create_task`). -/
def all_check_types : List String :=
  ["http", "https", "ping", "tcp", "traceroute",
   "dns_a", "dns_aaaa", "dns_mx", "dns_ns", "dns_txt"]

/-- The main server's Redis keyspace: `task:<id>` records and
`queue:<country>` lists. -/
structure RedisState where
  tasks : List (String × Task)
  queues : List (String × List String)
deriving Repr, DecidableEq

/-- Redis `LPUSH`: prepend to the list stored at a key, creating it if absent. -/
def lpushQ (qs : List (String × List String)) (key v : String) :
    List (String × List String) :=
  match lookupKV qs key with
  | some l => setKV qs key (v :: l)
  | none => qs ++ [(key, [v])]

/-- Response of `POST /tasks`. -/
structure CreateTaskResp where
  task_id : String
  target : String
  country : String
  check_types : List String
  sub_tasks : List String
deriving Repr, DecidableEq

/-- The `task_data` record `create_task` builds for one check type. -/
def subTaskRecord (target country task_id ct : String) (now : Nat) : Task :=
  { id := task_id ++ "-" ++ ct, parent_task_id := some task_id, target := target,
    check_type := ct, country := country, status := "pending", created_at := now,
    assigned_agent := none, result := none, agent_server := country }

/-- The fan-out loop of `create_task`: for each check type, build the pending
sub-task record, store it under `task:<sub_task_id>` and `LPUSH` its id onto
`queue:<country>`.  (The per-sub-task relay to the agent server is a logged
best-effort network call that touches no Redis state.) -/
def fanout (st : RedisState) (target country task_id : String) (now : Nat) :
    List String → List String × RedisState
  | [] => ([], st)
  | ct :: cts =>
    let sub_task_id := task_id ++ "-" ++ ct
    let td := subTaskRecord target country task_id ct now
    let st' : RedisState :=
      { tasks := setKV st.tasks sub_task_id td,
        queues := lpushQ st.queues country sub_task_id }
    let rest := fanout st' target country task_id now cts
    (sub_task_id :: rest.1, rest.2)

/-- `POST /tasks` (`create_task`): resolve `"auto"` (with a single configured
region, `secrets.choice` always yields `"ru"`), reject unconfigured countries
with 400, then fan out one sub-task per catalog check type. -/
def create_task (st : RedisState) (target country task_id : String) (now : Nat) :
    Except Nat (CreateTaskResp × RedisState) :=
  let country := if country == "auto" then "ru" else country
  if country ∈ AGENT_SERVERS_keys then
    let r := fanout st target country task_id now all_check_types
    .ok ({ task_id := task_id, target := target, country := country,
           check_types := all_check_types, sub_tasks := r.1 }, r.2)
  else
    .error 400

/-- Response of `GET /tasks/{task_id}`. -/
structure StatusResp where
  parent_task_id : String
  target : Option String
  country : Option String
  status_summary : List (String × Nat)
  completed : Bool
  checks : List Task
deriving Repr, DecidableEq

/-- The prefix scan of `get_task_status`: every stored key of the form
`<task_id>-...`, re-fetched through `TaskManager.get_task`. -/
def scan_sub_tasks (st : RedisState) (task_id : String) : List Task :=
  (st.tasks.filter (fun p => p.1.startsWith (task_id ++ "-"))).filterMap
    (fun p => lookupKV st.tasks p.1)

/-- One step of the status tally: `status_counts.get(status, 0) + 1`. -/
def bump (m : List (String × Nat)) (k : String) : List (String × Nat) :=
  match lookupKV m k with
  | some n => setKV m k (n + 1)
  | none => m ++ [(k, 1)]

/-- The status tally of `get_task_status`. -/
def countStatuses (l : List Task) : List (String × Nat) :=
  l.foldl (fun m t => bump m t.status) []

/-- `GET /tasks/{task_id}` (`get_task_status`): aggregate the prefix-scanned
sub-tasks; with none found, fall back to a direct lookup and otherwise
fail with 404. -/
def get_task_status (st : RedisState) (task_id : String) :
    Except Nat StatusResp :=
  let sub_tasks := scan_sub_tasks st task_id
  if sub_tasks.isEmpty then
    match lookupKV st.tasks task_id with
    | some mt =>
      .ok { parent_task_id := task_id, target := some mt.target,
            country := some mt.country,
            status_summary := [(mt.status, 1)],
            completed := mt.status == "completed",
            checks := [mt] }
    | none => .error 404
  else
    let counts := countStatuses sub_tasks
    .ok { parent_task_id := task_id,
          target := sub_tasks.head?.map Task.target,
          country := sub_tasks.head?.map Task.country,
          status_summary := counts,
          completed := (lookupKV counts "completed").getD 0 == sub_tasks.length,
          checks := sub_tasks }

/-! ## Liveness sweep (`src/netpulse_main_server/backend/main.py`) -/

/-- Agent record of `netpulse_main_server` (`register_agent`). -/
structure MSAgent where
  id : String
  name : String
  location : String
  capabilities : List String
  token : String
  status : String
  last_heartbeat : Int
  active_tasks : Int
  total_tasks : Int
  created_at : Int
deriving Repr, DecidableEq

/-- State touched by the sweep: the in-memory `active_agents` dict, the
Redis `agent:<id>` records, and the Redis `active_agents` set. -/
structure MainState where
  activeAgents : List (String × MSAgent)
  redisAgents : List (String × MSAgent)
  activeSet : List String
deriving Repr, DecidableEq

/-- `config.HEARTBEAT_TIMEOUT` (default 300 seconds). -/
def HEARTBEAT_TIMEOUT : Int := 300

/-- The `dead_agents` collection pass of `cleanup_dead_agents`. -/
def cleanup_collect (now : Int) (ags : List (String × MSAgent)) : List String :=
  (ags.filter (fun p => now - p.2.last_heartbeat > HEARTBEAT_TIMEOUT)).map Prod.fst

/-- The deletion pass of `cleanup_dead_agents`: mark offline, write back to
Redis, drop from the `active_agents` set and dict.  A missing key would raise
`KeyError`, which the cycle's `except` swallows, ending the pass. -/
def cleanup_loop : MainState → List String → MainState
  | st, [] => st
  | st, aid :: rest =>
    match lookupKV st.activeAgents aid with
    | none => st
    | some a =>
      let a' := { a with status := "offline" }
      cleanup_loop
        { activeAgents := eraseKV st.activeAgents aid,
          redisAgents := setKV st.redisAgents aid a',
          activeSet := st.activeSet.filter (fun x => x ≠ aid) }
        rest

/-- One cycle of the `cleanup_dead_agents` background sweep. -/
def cleanup_dead_agents (st : MainState) (now : Int) : MainState :=
  cleanup_loop st (cleanup_collect now st.activeAgents)

/-! ## Helper lemmas: association lists -/

theorem lookupKV_setKV_self {α : Type} (m : List (String × α)) (k : String) (v : α) :
    lookupKV (setKV m k v) k = some v := by
  induction m with
  | nil => simp [setKV, lookupKV]
  | cons p rest ih =>
    by_cases h : p.1 = k
    · simp [setKV, lookupKV, h]
    · simp [setKV, lookupKV, h, ih]

theorem lookupKV_setKV_ne {α : Type} (m : List (String × α)) (k k' : String) (v : α)
    (h : k' ≠ k) : lookupKV (setKV m k v) k' = lookupKV m k' := by
  induction m with
  | nil => simp [setKV, lookupKV, Ne.symm h]
  | cons p rest ih =>
    by_cases hp : p.1 = k
    · simp [setKV, lookupKV, hp, Ne.symm h]
    · simp only [setKV, hp, if_false, lookupKV]
      by_cases hq : p.1 = k'
      · simp [hq]
      · simp [hq, ih]

theorem lookupKV_updFirst_self {α : Type} (m : List (String × α)) (k : String)
    (f : α → α) : lookupKV (updFirst m k f) k = (lookupKV m k).map f := by
  induction m with
  | nil => simp [updFirst, lookupKV]
  | cons p rest ih =>
    by_cases h : p.1 = k
    · simp [updFirst, lookupKV, h]
    · simp [updFirst, lookupKV, h, ih]

theorem lookupKV_updFirst_ne {α : Type} (m : List (String × α)) (k k' : String)
    (f : α → α) (h : k' ≠ k) : lookupKV (updFirst m k f) k' = lookupKV m k' := by
  induction m with
  | nil => simp [updFirst, lookupKV]
  | cons p rest ih =>
    by_cases hp : p.1 = k
    · simp [updFirst, lookupKV, hp, Ne.symm h]
    · simp only [updFirst, hp, if_false, lookupKV]
      by_cases hq : p.1 = k'
      · simp [hq]
      · simp [hq, ih]

theorem lookupKV_eraseKV_ne {α : Type} (m : List (String × α)) (k k' : String)
    (h : k' ≠ k) : lookupKV (eraseKV m k) k' = lookupKV m k' := by
  induction m with
  | nil => simp [eraseKV, lookupKV]
  | cons p rest ih =>
    by_cases hp : p.1 = k
    · simp [eraseKV, lookupKV, hp, Ne.symm h]
    · simp only [eraseKV, hp, if_false, lookupKV]
      by_cases hq : p.1 = k'
      · simp [hq]
      · simp [hq, ih]

theorem lookupKV_eq_none_of_not_mem {α : Type} {m : List (String × α)} {k : String}
    (h : k ∉ m.map Prod.fst) : lookupKV m k = none := by
  induction m with
  | nil => rfl
  | cons p rest ih =>
    simp only [List.map_cons, List.mem_cons, not_or] at h
    have hp : p.1 ≠ k := fun hh => h.1 hh.symm
    simp only [lookupKV, hp, if_false]
    exact ih h.2

theorem lookupKV_eraseKV_self {α : Type} (m : List (String × α)) (k : String)
    (hnd : (m.map Prod.fst).Nodup) : lookupKV (eraseKV m k) k = none := by
  induction m with
  | nil => simp [eraseKV, lookupKV]
  | cons p rest ih =>
    simp only [List.map_cons, List.nodup_cons] at hnd
    by_cases hp : p.1 = k
    · simp only [eraseKV, hp, if_pos rfl]
      exact lookupKV_eq_none_of_not_mem (hp ▸ hnd.1)
    · simp [eraseKV, lookupKV, hp, ih hnd.2]

theorem lookupKV_append {α : Type} (m m' : List (String × α)) (k : String) :
    lookupKV (m ++ m') k =
      match lookupKV m k with
      | some v => some v
      | none => lookupKV m' k := by
  induction m with
  | nil => simp [lookupKV]
  | cons p rest ih =>
    by_cases h : p.1 = k
    · simp [lookupKV, h]
    · simp [lookupKV, h, ih]

theorem lookupKV_some_mem {α : Type} {m : List (String × α)} {k : String} {v : α}
    (h : lookupKV m k = some v) : (k, v) ∈ m := by
  induction m with
  | nil => simp [lookupKV] at h
  | cons p rest ih =>
    obtain ⟨p1, p2⟩ := p
    simp only [lookupKV] at h
    split at h
    · rename_i heq
      subst heq
      obtain rfl : p2 = v := Option.some.inj h
      exact List.mem_cons_self _ _
    · exact List.mem_cons_of_mem _ (ih h)

theorem mem_setKV {α : Type} {m : List (String × α)} {k : String} {v : α} {x : String × α}
    (h : x ∈ setKV m k v) : x ∈ m ∨ x = (k, v) := by
  induction m with
  | nil =>
    simp only [setKV, List.mem_singleton] at h
    exact Or.inr h
  | cons p rest ih =>
    obtain ⟨p1, p2⟩ := p
    simp only [setKV] at h
    split at h
    · rename_i heq
      subst heq
      rcases List.mem_cons.mp h with h | h
      · exact Or.inr h
      · exact Or.inl (List.mem_cons_of_mem _ h)
    · rcases List.mem_cons.mp h with h | h
      · exact Or.inl (h ▸ List.mem_cons_self _ _)
      · rcases ih h with h2 | h2
        · exact Or.inl (List.mem_cons_of_mem _ h2)
        · exact Or.inr h2

theorem mem_updFirst {α : Type} {m : List (String × α)} {k : String} {f : α → α}
    {x : String × α} (h : x ∈ updFirst m k f) :
    x ∈ m ∨ ∃ v, (k, v) ∈ m ∧ x = (k, f v) := by
  induction m with
  | nil => simp [updFirst] at h
  | cons p rest ih =>
    obtain ⟨p1, p2⟩ := p
    simp only [updFirst] at h
    split at h
    · rename_i heq
      subst heq
      rcases List.mem_cons.mp h with h | h
      · exact Or.inr ⟨p2, List.mem_cons_self _ _, h⟩
      · exact Or.inl (List.mem_cons_of_mem _ h)
    · rcases List.mem_cons.mp h with h | h
      · exact Or.inl (h ▸ List.mem_cons_self _ _)
      · rcases ih h with h2 | ⟨v, hv, hx⟩
        · exact Or.inl (List.mem_cons_of_mem _ h2)
        · exact Or.inr ⟨v, List.mem_cons_of_mem _ hv, hx⟩

theorem mem_updFirst_lookup {α : Type} {m : List (String × α)} {k : String}
    {f : α → α} {a : α} (ha : lookupKV m k = some a) {x : String × α}
    (h : x ∈ updFirst m k f) : x ∈ m ∨ x = (k, f a) := by
  induction m with
  | nil => simp [updFirst] at h
  | cons p rest ih =>
    obtain ⟨p1, p2⟩ := p
    by_cases hp : p1 = k
    · subst hp
      have ha2 : p2 = a := by simpa [lookupKV] using ha
      subst ha2
      have h2 : x = (p1, f p2) ∨ x ∈ rest := by simpa [updFirst] using h
      rcases h2 with h | h
      · exact Or.inr h
      · exact Or.inl (List.mem_cons_of_mem _ h)
    · simp only [lookupKV, if_neg hp] at ha
      simp only [updFirst, if_neg hp, List.mem_cons] at h
      rcases h with h | h
      · exact Or.inl (h ▸ List.mem_cons_self _ _)
      · rcases ih ha h with h2 | h2
        · exact Or.inl (List.mem_cons_of_mem _ h2)
        · exact Or.inr h2

theorem eraseKV_sublist {α : Type} (m : List (String × α)) (k : String) :
    (eraseKV m k).Sublist m := by
  induction m with
  | nil => simp [eraseKV]
  | cons p rest ih =>
    by_cases hp : p.1 = k
    · simp only [eraseKV, hp, if_pos rfl]
      exact List.sublist_cons_self p rest
    · simp only [eraseKV, hp, if_false]
      exact List.Sublist.cons₂ p ih

theorem mem_lookupKV_nodup {α : Type} {m : List (String × α)} {k : String} {v : α}
    (hnd : (m.map Prod.fst).Nodup) (h : (k, v) ∈ m) : lookupKV m k = some v := by
  induction m with
  | nil => simp at h
  | cons p rest ih =>
    simp only [List.map_cons, List.nodup_cons] at hnd
    rcases List.mem_cons.mp h with h | h
    · rw [← h]
      simp [lookupKV]
    · have hp : p.1 ≠ k := by
        intro hh
        exact hnd.1 (List.mem_map.mpr ⟨(k, v), h, hh.symm⟩)
      simp only [lookupKV, hp, if_false]
      exact ih hnd.2 h

/-! ## Helper lemmas: strings and queues -/

theorem string_append_cancel {p a b : String} (h : p ++ a = p ++ b) : a = b := by
  have hd : (p ++ a).data = (p ++ b).data := congrArg String.data h
  simp only [String.data_append] at hd
  exact String.ext (List.append_cancel_left hd)

theorem contains_iff_mem (l : List String) (a : String) :
    l.contains a = true ↔ a ∈ l := by
  simp

theorem taskEligible_iff (caps : List String) (t : Task) :
    taskEligible caps t = true ↔ t.status = "pending" ∧ t.check_type ∈ caps := by
  simp [taskEligible, contains_iff_mem]

@[simp] theorem applyAssign_id (t : Task) (st : String) (aid : Option String) :
    (applyAssign t st aid).id = t.id := rfl

@[simp] theorem applyAssign_check_type (t : Task) (st : String) (aid : Option String) :
    (applyAssign t st aid).check_type = t.check_type := rfl

@[simp] theorem applyAssign_status (t : Task) (st : String) (aid : Option String) :
    (applyAssign t st aid).status = st := rfl

theorem update_task_status_not_mem {q : List Task} {task_id : String}
    (h : task_id ∉ q.map Task.id) (st : String) (aid : Option String) :
    update_task_status q task_id st aid = q := by
  induction q with
  | nil => rfl
  | cons t ts ih =>
    simp only [List.map_cons, List.mem_cons, not_or] at h
    have ht : t.id ≠ task_id := fun hh => h.1 hh.symm
    simp only [update_task_status, ht, if_false]
    rw [ih h.2]

theorem update_task_status_split {pre post : List Task} {t : Task}
    (h : t.id ∉ pre.map Task.id) (st : String) (aid : Option String) :
    update_task_status (pre ++ t :: post) t.id st aid =
      pre ++ applyAssign t st aid :: post := by
  induction pre with
  | nil => simp [update_task_status]
  | cons u us ih =>
    simp only [List.map_cons, List.mem_cons, not_or] at h
    have hu : u.id ≠ t.id := fun hh => h.1 hh.symm
    simp only [List.cons_append, update_task_status, hu, if_false, List.append_eq]
    rw [ih h.2]

theorem update_task_status_map_id (q : List Task) (task_id st : String)
    (aid : Option String) :
    (update_task_status q task_id st aid).map Task.id = q.map Task.id := by
  induction q with
  | nil => rfl
  | cons t ts ih =>
    by_cases ht : t.id = task_id
    · simp [update_task_status, ht]
    · simp [update_task_status, ht, ih]

theorem update_task_status_length (q : List Task) (task_id st : String)
    (aid : Option String) :
    (update_task_status q task_id st aid).length = q.length := by
  induction q with
  | nil => rfl
  | cons t ts ih =>
    by_cases ht : t.id = task_id
    · simp [update_task_status, ht]
    · simp [update_task_status, ht, ih]

/-- A successful scan splits the queue: everything before the hit is
ineligible, and the hit is eligible. -/
theorem gptfa_some_split {caps : List String} {q : List Task} {t : Task}
    (h : get_pending_task_for_agent caps q = some t) :
    ∃ pre post, q = pre ++ t :: post ∧
      (∀ u ∈ pre, taskEligible caps u = false) ∧ taskEligible caps t = true := by
  induction q with
  | nil => simp [get_pending_task_for_agent] at h
  | cons u us ih =>
    simp only [get_pending_task_for_agent] at h
    split at h
    · rename_i hu
      obtain rfl : u = t := Option.some.inj h
      exact ⟨[], us, by simp, by simp, hu⟩
    · rename_i hu
      obtain ⟨pre, post, hq, hpre, ht⟩ := ih h
      refine ⟨u :: pre, post, by rw [hq, List.cons_append], ?_, ht⟩
      intro x hx
      rcases List.mem_cons.mp hx with hx | hx
      · rw [hx]; exact Bool.eq_false_iff.mpr hu
      · exact hpre x hx

theorem gptfa_none_iff {caps : List String} {q : List Task} :
    get_pending_task_for_agent caps q = none ↔
      ∀ u ∈ q, taskEligible caps u = false := by
  induction q with
  | nil => simp [get_pending_task_for_agent]
  | cons u us ih =>
    simp only [get_pending_task_for_agent]
    split
    · rename_i hu
      constructor
      · intro h
        exact absurd h (by simp)
      · intro h
        have hc := h u (List.mem_cons_self _ _)
        rw [hu] at hc
        exact absurd hc (by simp)
    · rename_i hu
      have hu' : taskEligible caps u = false := Bool.eq_false_iff.mpr hu
      rw [ih]
      constructor
      · intro h x hx
        rcases List.mem_cons.mp hx with hx | hx
        · rw [hx]; exact hu'
        · exact h x hx
      · intro h x hx
        exact h x (List.mem_cons_of_mem _ hx)

theorem queuePartBeforeElig_of_split {caps : List String} {pre post : List Task}
    {t : Task} (hpre : ∀ u ∈ pre, taskEligible caps u = false)
    (ht : taskEligible caps t = true) :
    queuePartBeforeElig caps (pre ++ t :: post) = pre := by
  induction pre with
  | nil => simp [queuePartBeforeElig, ht]
  | cons u us ih =>
    have hu : taskEligible caps u = false := hpre u (List.mem_cons_self _ _)
    simp only [List.cons_append, queuePartBeforeElig, List.append_eq]
    split
    · rename_i h2
      rw [hu] at h2
      exact absurd h2 (by simp)
    · rw [ih (fun x hx => hpre x (List.mem_cons_of_mem _ hx))]

/-- Two queue members that share an id are the same record when queue ids
are distinct. -/
theorem mem_eq_of_id_nodup {q : List Task} (hnd : (q.map Task.id).Nodup)
    {u v : Task} (hu : u ∈ q) (hv : v ∈ q) (h : u.id = v.id) : u = v := by
  induction q with
  | nil => simp at hu
  | cons w ws ih =>
    simp only [List.map_cons, List.nodup_cons] at hnd
    rcases List.mem_cons.mp hu with hu | hu <;> rcases List.mem_cons.mp hv with hv | hv
    · rw [hu, hv]
    · exact absurd (List.mem_map.mpr ⟨v, hv, (hu ▸ h).symm⟩) hnd.1
    · exact absurd (List.mem_map.mpr ⟨u, hu, hv ▸ h⟩) hnd.1
    · exact ih hnd.2 hu hv

/-! ## Helper lemmas: fan-out -/

theorem lpushQ_lookup_self (qs : List (String × List String)) (k v : String) :
    lookupKV (lpushQ qs k v) k = some (v :: (lookupKV qs k).getD []) := by
  unfold lpushQ
  cases h : lookupKV qs k with
  | some l => simp [h, lookupKV_setKV_self]
  | none =>
    simp only [h, Option.getD_none]
    rw [lookupKV_append]
    simp [h, lookupKV]

theorem fanout_sub_tasks (st : RedisState) (target country task_id : String)
    (now : Nat) (cts : List String) :
    (fanout st target country task_id now cts).1 =
      cts.map (fun ct => task_id ++ "-" ++ ct) := by
  induction cts generalizing st with
  | nil => rfl
  | cons c cs ih => simp only [fanout, List.map_cons, ih]

theorem fanout_tasks_preserved {target country task_id : String} {now : Nat}
    {cts : List String} {k : String}
    (h : k ∉ cts.map (fun ct => task_id ++ "-" ++ ct)) (st : RedisState) :
    lookupKV (fanout st target country task_id now cts).2.tasks k =
      lookupKV st.tasks k := by
  induction cts generalizing st with
  | nil => rfl
  | cons c cs ih =>
    simp only [List.map_cons, List.mem_cons, not_or] at h
    simp only [fanout]
    rw [ih h.2]
    exact lookupKV_setKV_ne _ _ _ _ h.1

theorem fanout_lookup {target country task_id : String} {now : Nat}
    {cts : List String} (hnd : (cts.map (fun ct => task_id ++ "-" ++ ct)).Nodup)
    {ct : String} (h : ct ∈ cts) (st : RedisState) :
    lookupKV (fanout st target country task_id now cts).2.tasks
        (task_id ++ "-" ++ ct) =
      some (subTaskRecord target country task_id ct now) := by
  induction cts generalizing st with
  | nil => simp at h
  | cons c cs ih =>
    simp only [List.map_cons, List.nodup_cons] at hnd
    simp only [fanout]
    rcases List.mem_cons.mp h with h | h
    · subst h
      rw [fanout_tasks_preserved hnd.1]
      exact lookupKV_setKV_self _ _ _
    · exact ih hnd.2 h _

theorem fanout_queue_some {target country task_id : String} {now : Nat}
    {cts : List String} {l : List String} {st : RedisState}
    (h : lookupKV st.queues country = some l) :
    lookupKV (fanout st target country task_id now cts).2.queues country =
      some ((cts.map (fun ct => task_id ++ "-" ++ ct)).reverse ++ l) := by
  induction cts generalizing st l with
  | nil => simpa [fanout] using h
  | cons c cs ih =>
    simp only [fanout]
    have h1 : lookupKV (lpushQ st.queues country (task_id ++ "-" ++ c)) country =
        some ((task_id ++ "-" ++ c) :: l) := by
      rw [lpushQ_lookup_self, h]
      rfl
    rw [ih h1]
    simp

theorem fanout_queue {target country task_id : String} {now : Nat}
    {cts : List String} (hne : cts ≠ []) (st : RedisState) :
    lookupKV (fanout st target country task_id now cts).2.queues country =
      some ((cts.map (fun ct => task_id ++ "-" ++ ct)).reverse ++
        (lookupKV st.queues country).getD []) := by
  cases cts with
  | nil => exact absurd rfl hne
  | cons c cs =>
    simp only [fanout]
    have h1 : lookupKV (lpushQ st.queues country (task_id ++ "-" ++ c)) country =
        some ((task_id ++ "-" ++ c) :: (lookupKV st.queues country).getD []) :=
      lpushQ_lookup_self _ _ _
    rw [fanout_queue_some h1]
    simp

theorem subIds_nodup (task_id : String) {cts : List String} (h : cts.Nodup) :
    (cts.map (fun ct => task_id ++ "-" ++ ct)).Nodup := by
  refine h.map ?_
  intro a b hab
  simp only at hab
  exact string_append_cancel hab

/-- Evaluation of the poll endpoint for a verified, online, under-capacity
agent: the gates fall through to the scan-and-assign step. -/
theorem get_pending_task_unfold (s : AgState) (aid tok : String) (now : Nat) (a : Agent)
    (hv : verify_agent s aid tok = true)
    (ha : lookupKV s.agents_db aid = some a)
    (hon : a.status = "online")
    (hcap : a.current_tasks < a.max_tasks) :
    get_pending_task s aid tok now =
      match get_pending_task_for_agent a.capabilities s.tasks_queue with
      | some t =>
        (.task (if (queuePartBeforeElig a.capabilities s.tasks_queue).any
                  (fun u => u.id == t.id) then t
                else applyAssign t "assigned" (some aid)),
         { s with
           tasks_queue := update_task_status s.tasks_queue t.id "assigned" (some aid),
           agents_db := updFirst s.agents_db aid
             (fun b => { b with current_tasks := b.current_tasks + 1,
                                last_heartbeat := now }) })
      | none => (.no_tasks, s) := by
  unfold get_pending_task
  rw [hv, ha]
  simp only [hon, bne_self_eq_false, Bool.false_eq_true, if_false, if_true,
    not_le.mpr hcap, ite_true, ite_false]

/-! ## Claims -/

/-- C1: for every `create_task(target, country)` call with a configured
country, exactly one sub-task is created per check type of the fixed 10-type
catalog; each sub-task id is the parent id plus the check-type discriminator
(hence the 10 ids are collision-free), each sub-task is persisted with status
`pending` and `parent_task_id` equal to the parent id, each id is pushed onto
the region's queue, and the call returns the parent id together with the full
list of 10 sub-task ids. -/
theorem create_task_fanout_spec (st : RedisState) (target country task_id : String)
    (now : Nat) (hc : country ∈ AGENT_SERVERS_keys) :
    ∃ resp st', create_task st target country task_id now = .ok (resp, st') ∧
      resp.task_id = task_id ∧
      resp.sub_tasks = all_check_types.map (fun ct => task_id ++ "-" ++ ct) ∧
      resp.sub_tasks.length = 10 ∧
      resp.sub_tasks.Nodup ∧
      (∀ ct ∈ all_check_types, ∃ td,
        lookupKV st'.tasks (task_id ++ "-" ++ ct) = some td ∧
        td.id = task_id ++ "-" ++ ct ∧
        td.parent_task_id = some task_id ∧
        td.status = "pending" ∧
        td.check_type = ct ∧
        td.target = target) ∧
      lookupKV st'.queues country =
        some (resp.sub_tasks.reverse ++ (lookupKV st.queues country).getD []) ∧
      (∀ sid ∈ resp.sub_tasks, sid ∈ (lookupKV st'.queues country).getD []) := by
  have hcountry : country = "ru" := by simpa [AGENT_SERVERS_keys] using hc
  subst hcountry
  have hnodup : all_check_types.Nodup := by decide
  have hids := subIds_nodup task_id hnodup
  refine ⟨{ task_id := task_id, target := target, country := "ru",
            check_types := all_check_types,
            sub_tasks := (fanout st target "ru" task_id now all_check_types).1 },
          (fanout st target "ru" task_id now all_check_types).2, rfl, rfl,
          fanout_sub_tasks st target "ru" task_id now all_check_types,
          ?_, ?_, ?_, ?_, ?_⟩
  · rw [fanout_sub_tasks]
    simp [all_check_types]
  · rw [fanout_sub_tasks]
    exact hids
  · intro ct hct
    exact ⟨subTaskRecord target "ru" task_id ct now,
      fanout_lookup hids hct st, rfl, rfl, rfl, rfl, rfl⟩
  · rw [fanout_sub_tasks]
    exact fanout_queue (by decide) st
  · intro sid hsid
    rw [fanout_queue (by decide) st]
    rw [fanout_sub_tasks] at hsid
    simp only [Option.getD_some, List.mem_append, List.mem_reverse]
    exact Or.inl hsid

/-- Concrete instantiation of `create_task_fanout_spec`. -/
theorem create_task_fanout_spec_witness :
    ∃ resp st',
      create_task { tasks := [], queues := [] } "example.com" "ru" "T" 0 =
        .ok (resp, st') ∧
      resp.task_id = "T" ∧
      resp.sub_tasks = all_check_types.map (fun ct => "T" ++ "-" ++ ct) ∧
      resp.sub_tasks.length = 10 ∧
      resp.sub_tasks.Nodup ∧
      (∀ ct ∈ all_check_types, ∃ td,
        lookupKV st'.tasks ("T" ++ "-" ++ ct) = some td ∧
        td.id = "T" ++ "-" ++ ct ∧
        td.parent_task_id = some "T" ∧
        td.status = "pending" ∧
        td.check_type = ct ∧
        td.target = "example.com") ∧
      lookupKV st'.queues "ru" =
        some (resp.sub_tasks.reverse ++
          (lookupKV ({ tasks := [], queues := [] } : RedisState).queues "ru").getD []) ∧
      (∀ sid ∈ resp.sub_tasks, sid ∈ (lookupKV st'.queues "ru").getD []) :=
  create_task_fanout_spec { tasks := [], queues := [] } "example.com" "ru" "T" 0
    (by decide)

/-- C2: a credential-verified, online, under-capacity agent polling for work
gets the region's pending queue scanned in insertion order: with no pending
eligible sub-task the call returns the in-band `no_tasks` status; otherwise
the first pending sub-task whose check type the agent's capability set
contains (first-match — everything before it is ineligible) is set to
`assigned` with `assigned_agent` the agent id, the agent's `current_tasks`
grows by 1, its `last_heartbeat` is refreshed, and the sub-task is returned. -/
theorem poll_assigns_first_eligible (s : AgState) (aid tok : String) (now : Nat)
    (a : Agent)
    (hv : verify_agent s aid tok = true)
    (ha : lookupKV s.agents_db aid = some a)
    (hon : a.status = "online")
    (hcap : a.current_tasks < a.max_tasks)
    (hnd : (s.tasks_queue.map Task.id).Nodup)
    (haid : aid ≠ "") :
    (get_pending_task_for_agent a.capabilities s.tasks_queue = none →
      get_pending_task s aid tok now = (.no_tasks, s)) ∧
    (∀ t, get_pending_task_for_agent a.capabilities s.tasks_queue = some t →
      ∃ pre post,
        s.tasks_queue = pre ++ t :: post ∧
        (∀ u ∈ pre, ¬(u.status = "pending" ∧ u.check_type ∈ a.capabilities)) ∧
        t.status = "pending" ∧ t.check_type ∈ a.capabilities ∧
        (get_pending_task s aid tok now).1 =
          .task { t with status := "assigned", assigned_agent := some aid } ∧
        (get_pending_task s aid tok now).2.tasks_queue =
          pre ++ { t with status := "assigned", assigned_agent := some aid } :: post ∧
        lookupKV (get_pending_task s aid tok now).2.agents_db aid =
          some { a with current_tasks := a.current_tasks + 1,
                        last_heartbeat := now } ∧
        (get_pending_task s aid tok now).2.task_results = s.task_results) := by
  have hu := get_pending_task_unfold s aid tok now a hv ha hon hcap
  constructor
  · intro hnone
    rw [hu, hnone]
  · intro t hsome
    obtain ⟨pre, post, hq, hpre, ht⟩ := gptfa_some_split hsome
    have hpre' : ∀ u ∈ pre, ¬(u.status = "pending" ∧ u.check_type ∈ a.capabilities) :=
      fun u hu2 hp =>
        Bool.eq_false_iff.mp (hpre u hu2) ((taskEligible_iff _ _).mpr hp)
    have htp := (taskEligible_iff _ _).mp ht
    have hidpre : t.id ∉ pre.map Task.id := by
      intro hmem
      rw [hq] at hnd
      simp only [List.map_append, List.map_cons] at hnd
      exact (List.nodup_append.mp hnd).2.2 hmem (List.mem_cons_self _ _)
    have hany : (queuePartBeforeElig a.capabilities s.tasks_queue).any
        (fun u => u.id == t.id) = false := by
      rw [hq, queuePartBeforeElig_of_split hpre ht]
      rw [List.any_eq_false]
      intro u hu2
      simp only [beq_iff_eq]
      intro hid
      exact hidpre (List.mem_map.mpr ⟨u, hu2, hid⟩)
    have hassign : applyAssign t "assigned" (some aid) =
        { t with status := "assigned", assigned_agent := some aid } := by
      simp [applyAssign, haid]
    refine ⟨pre, post, hq, hpre', htp.1, htp.2, ?_, ?_, ?_, ?_⟩
    · rw [hu, hsome]
      simp only [hany, Bool.false_eq_true, if_false, hassign]
    · rw [hu, hsome]
      simp only
      rw [hq, update_task_status_split hidpre, hassign]
    · rw [hu, hsome]
      simp only
      rw [lookupKV_updFirst_self, ha]
      rfl
    · rw [hu, hsome]

/-! ### Concrete fixtures used by the witnesses -/

/-- A concrete agent (`create_agent` with the default capability set). -/
def wAgent : Agent := create_agent_record "a1" "tok1" "Agent-1" none 0

/-- A concrete pending sub-task. -/
def wTask (i ct : String) : Task :=
  { id := i, parent_task_id := some "T", target := "example.com", check_type := ct,
    country := "ru", status := "pending", created_at := 0, assigned_agent := none,
    result := none, agent_server := "ru" }

/-- A concrete agent-server state with one agent and two pending sub-tasks. -/
def wState : AgState :=
  { agents_db := [("a1", wAgent)],
    tasks_queue := [wTask "x1" "http", wTask "x2" "ping"],
    task_results := [] }

/-- Concrete instantiation of `poll_assigns_first_eligible`: polling the
fixture state assigns and returns the first pending eligible sub-task. -/
theorem poll_assigns_first_eligible_witness :
    (get_pending_task wState "a1" "tok1" 7).1 =
      .task { (wTask "x1" "http") with status := "assigned",
                                       assigned_agent := some "a1" } ∧
    lookupKV (get_pending_task wState "a1" "tok1" 7).2.agents_db "a1" =
      some { (wAgent) with current_tasks := 1, last_heartbeat := 7 } := by
  obtain ⟨_, h2⟩ := poll_assigns_first_eligible wState "a1" "tok1" 7 wAgent
    (by decide) (by decide) (by decide) (by decide) (by decide) (by decide)
  obtain ⟨pre, post, hq, hpre, hp, hc, hres, hq2, hag, hres2⟩ :=
    h2 (wTask "x1" "http") (by decide)
  exact ⟨hres, hag⟩

/-- Evaluation of the submit endpoint for a verified agent. -/
theorem submit_result_unfold (s : AgState) (tid aid tok : String) (r : ResultData)
    (hv : verify_agent s aid tok = true) :
    submit_result s tid aid tok r =
      (.success,
       { agents_db := updFirst s.agents_db aid
           (fun b => { b with current_tasks := max 0 (b.current_tasks - 1) }),
         tasks_queue := update_task_status s.tasks_queue tid "completed" none,
         task_results := setKV s.task_results tid r }) := by
  unfold submit_result
  rw [hv]
  simp

/-- A concrete result payload. -/
def wRes : ResultData := [("status", "success")]

/-- A second, distinct concrete result payload. -/
def wRes2 : ResultData := [("status", "retry")]

/-- C3 counterexample: in the fixture state the agent is assigned both
sub-tasks (`current_tasks = 2`); a first submission for sub-task `x1` leaves
`current_tasks = 1`, and a second submission for the same sub-task id by the
same agent decrements it again, to 0 — not the 1 the claim requires. -/
theorem submit_result_double_decrement_cex :
    (lookupKV (runOps wState
        [.poll "a1" "tok1" 1, .poll "a1" "tok1" 2,
         .submit "x1" "a1" "tok1" wRes]).agents_db "a1").map
      Agent.current_tasks = some 1 ∧
    (lookupKV (runOps wState
        [.poll "a1" "tok1" 1, .poll "a1" "tok1" 2,
         .submit "x1" "a1" "tok1" wRes,
         .submit "x1" "a1" "tok1" wRes]).agents_db "a1").map
      Agent.current_tasks = some 0 ∧
    (some (0 : Int) ≠ some 1) := by decide

/-- C3 (amended): `submit_result` with valid credentials decrements the
agent's `current_tasks` by 1, floored at 0, on every submission — a repeat
submission for the same sub-task id overwrites the stored result and
decrements again (floored at 0); the decrement is not limited to the first
submission. -/
theorem submit_result_decrements_each_time (s : AgState)
    (tid aid tok : String) (r1 r2 : ResultData) (a : Agent)
    (hv : verify_agent s aid tok = true)
    (ha : lookupKV s.agents_db aid = some a) :
    (submit_result s tid aid tok r1).1 = .success ∧
    lookupKV (submit_result s tid aid tok r1).2.task_results tid = some r1 ∧
    lookupKV (submit_result s tid aid tok r1).2.agents_db aid =
      some { a with current_tasks := max 0 (a.current_tasks - 1) } ∧
    (submit_result (submit_result s tid aid tok r1).2 tid aid tok r2).1 = .success ∧
    lookupKV (submit_result (submit_result s tid aid tok r1).2 tid aid tok r2).2.task_results
      tid = some r2 ∧
    lookupKV (submit_result (submit_result s tid aid tok r1).2 tid aid tok r2).2.agents_db
      aid = some { a with current_tasks := max 0 (max 0 (a.current_tasks - 1) - 1) } := by
  have htok : a.token == tok := by simpa [verify_agent, ha] using hv
  have hs1 := submit_result_unfold s tid aid tok r1 hv
  have ha1 : lookupKV (submit_result s tid aid tok r1).2.agents_db aid =
      some { a with current_tasks := max 0 (a.current_tasks - 1) } := by
    rw [hs1]
    simp only
    rw [lookupKV_updFirst_self, ha]
    rfl
  have hv1 : verify_agent (submit_result s tid aid tok r1).2 aid tok = true := by
    unfold verify_agent
    rw [ha1]
    exact htok
  have hs2 := submit_result_unfold (submit_result s tid aid tok r1).2 tid aid tok r2 hv1
  refine ⟨by rw [hs1], ?_, ha1, by rw [hs2], ?_, ?_⟩
  · rw [hs1]
    exact lookupKV_setKV_self _ _ _
  · rw [hs2]
    simp only
    exact lookupKV_setKV_self _ _ _
  · rw [hs2]
    simp only
    rw [lookupKV_updFirst_self, ha1]
    rfl

/-- Concrete instantiation of `submit_result_decrements_each_time`. -/
theorem submit_result_decrements_each_time_witness :
    (submit_result wState "x1" "a1" "tok1" wRes).1 = .success ∧
    lookupKV (submit_result (submit_result wState "x1" "a1" "tok1" wRes).2
        "x1" "a1" "tok1" wRes2).2.task_results "x1" = some wRes2 ∧
    lookupKV (submit_result (submit_result wState "x1" "a1" "tok1" wRes).2
        "x1" "a1" "tok1" wRes2).2.agents_db "a1" =
      some { wAgent with
             current_tasks := max 0 (max 0 (wAgent.current_tasks - 1) - 1) } := by
  obtain ⟨h1, h2, h3, h4, h5, h6⟩ := submit_result_decrements_each_time wState
    "x1" "a1" "tok1" wRes wRes2 wAgent (by decide) (by decide)
  exact ⟨h1, h5, h6⟩

/-! ### C4: load invariant -/

/-- The agent-load invariant: every registered agent's `current_tasks` lies
between 0 and its `max_tasks`. -/
def AgentInv (s : AgState) : Prop :=
  ∀ p ∈ s.agents_db, 0 ≤ (p.2 : Agent).current_tasks ∧
    (p.2 : Agent).current_tasks ≤ (p.2 : Agent).max_tasks

theorem poll_preserves_inv (s : AgState) (aid tok : String) (now : Nat)
    (h : AgentInv s) : AgentInv (get_pending_task s aid tok now).2 := by
  unfold get_pending_task
  split
  · split
    · exact h
    · rename_i a ha
      split
      · exact h
      · split
        · exact h
        · rename_i hge
          split
          · rename_i t ht
            intro p hp
            rcases mem_updFirst_lookup ha hp with hp2 | hp2
            · exact h p hp2
            · subst hp2
              have hinv := h (aid, a) (lookupKV_some_mem ha)
              have hlt : a.current_tasks < a.max_tasks := lt_of_not_le hge
              simp only at hinv ⊢
              omega
          · exact h
  · exact h

theorem submit_preserves_inv (s : AgState) (tid aid tok : String) (r : ResultData)
    (h : AgentInv s) : AgentInv (submit_result s tid aid tok r).2 := by
  unfold submit_result
  split
  · intro p hp
    rcases mem_updFirst hp with hp2 | ⟨v, hv2, hp2⟩
    · exact h p hp2
    · subst hp2
      have hinv := h (aid, v) hv2
      simp only at hinv ⊢
      omega
  · exact h

theorem stepOp_preserves_inv (s : AgState) (op : AOp) (h : AgentInv s) :
    AgentInv (stepOp s op) := by
  cases op with
  | createAgent st aid atok name caps now =>
    simp only [stepOp, create_agent]
    split
    · intro p hp
      rcases mem_setKV hp with hp2 | hp2
      · exact h p hp2
      · subst hp2
        simp [create_agent_record]
    · exact h
  | assignTask t st =>
    simp only [stepOp, assign_task]
    split
    · exact fun p hp => h p hp
    · exact h
  | poll aid tok now => exact poll_preserves_inv s aid tok now h
  | submit tid aid tok r => exact submit_preserves_inv s tid aid tok r h
  | heartbeat aid tok now =>
    simp only [stepOp, agent_heartbeat]
    split
    · intro p hp
      rcases mem_updFirst hp with hp2 | ⟨v, hv2, hp2⟩
      · exact h p hp2
      · subst hp2
        exact h (aid, v) hv2
    · exact h
  | stopAgent aid st =>
    simp only [stepOp, stop_agent]
    split
    · intro p hp
      rcases mem_updFirst hp with hp2 | ⟨v, hv2, hp2⟩
      · exact h p hp2
      · subst hp2
        exact h (aid, v) hv2
    · exact h

theorem runOps_preserves_inv (ops : List AOp) (s : AgState) (h : AgentInv s) :
    AgentInv (runOps s ops) := by
  induction ops generalizing s with
  | nil => exact h
  | cons op rest ih => exact ih _ (stepOp_preserves_inv s op h)

/-- C4: along every sequence of agent-server calls from a state satisfying
the load invariant (in particular from the empty initial state), every
agent's `current_tasks` stays between 0 and its `max_tasks`; and a poll by a
verified, online agent already at capacity returns the in-band `busy` status
and changes nothing. -/
theorem current_tasks_invariant_and_busy :
    (∀ s ops, AgentInv s → AgentInv (runOps s ops)) ∧
    (∀ s aid tok now a, verify_agent s aid tok = true →
      lookupKV s.agents_db aid = some a → a.status = "online" →
      a.current_tasks ≥ a.max_tasks →
      get_pending_task s aid tok now = (.busy, s)) := by
  constructor
  · exact fun s ops h => runOps_preserves_inv ops s h
  · intro s aid tok now a hv ha hon hge
    unfold get_pending_task
    rw [hv, ha]
    simp [hon, hge]

/-- A fixture state whose agent is at capacity. -/
def wBusyState : AgState :=
  { agents_db := [("a1", { wAgent with current_tasks := 5 })],
    tasks_queue := [wTask "x1" "http"],
    task_results := [] }

/-- Concrete instantiation of `current_tasks_invariant_and_busy`. -/
theorem current_tasks_invariant_and_busy_witness :
    AgentInv (runOps wState
      [.poll "a1" "tok1" 1, .submit "x1" "a1" "tok1" wRes]) ∧
    get_pending_task wBusyState "a1" "tok1" 3 = (.busy, wBusyState) := by
  constructor
  · exact current_tasks_invariant_and_busy.1 wState
      [.poll "a1" "tok1" 1, .submit "x1" "a1" "tok1" wRes]
      (by unfold AgentInv; decide)
  · exact current_tasks_invariant_and_busy.2 wBusyState "a1" "tok1" 3
      { wAgent with current_tasks := 5 } (by decide) (by decide) (by decide)
      (by decide)

/-! ### C5: status aggregation -/

theorem sumVals_setKV_of_lookup {m : List (String × Nat)} {k : String} {n : Nat}
    (v : Nat) (h : lookupKV m k = some n) :
    ((setKV m k v).map Prod.snd).sum + n = (m.map Prod.snd).sum + v := by
  induction m with
  | nil => simp [lookupKV] at h
  | cons p rest ih =>
    obtain ⟨p1, p2⟩ := p
    by_cases hp : p1 = k
    · subst hp
      have h2 : p2 = n := by simpa [lookupKV] using h
      subst h2
      simp only [setKV, List.map_cons, List.sum_cons, if_true]
      omega
    · simp only [lookupKV, if_neg hp] at h
      simp only [setKV, if_neg hp, List.map_cons, List.sum_cons]
      have := ih h
      omega

theorem sumVals_bump (m : List (String × Nat)) (k : String) :
    ((bump m k).map Prod.snd).sum = (m.map Prod.snd).sum + 1 := by
  cases h : lookupKV m k with
  | some n =>
    have hb : bump m k = setKV m k (n + 1) := by unfold bump; rw [h]
    rw [hb]
    have := sumVals_setKV_of_lookup (n + 1) h
    omega
  | none =>
    have hb : bump m k = m ++ [(k, 1)] := by unfold bump; rw [h]
    rw [hb]
    simp

theorem lookupKV_bump_self (m : List (String × Nat)) (k : String) :
    (lookupKV (bump m k) k).getD 0 = (lookupKV m k).getD 0 + 1 := by
  cases h : lookupKV m k with
  | some n =>
    have hb : bump m k = setKV m k (n + 1) := by unfold bump; rw [h]
    rw [hb]
    simp [lookupKV_setKV_self]
  | none =>
    have hb : bump m k = m ++ [(k, 1)] := by unfold bump; rw [h]
    rw [hb, lookupKV_append]
    simp [h, lookupKV]

theorem lookupKV_bump_ne (m : List (String × Nat)) (k s : String) (h : s ≠ k) :
    lookupKV (bump m k) s = lookupKV m s := by
  cases h2 : lookupKV m k with
  | some n =>
    have hb : bump m k = setKV m k (n + 1) := by unfold bump; rw [h2]
    rw [hb]
    exact lookupKV_setKV_ne _ _ _ _ h
  | none =>
    have hb : bump m k = m ++ [(k, 1)] := by unfold bump; rw [h2]
    rw [hb, lookupKV_append]
    cases h3 : lookupKV m s with
    | some v => simp
    | none => simp [lookupKV, Ne.symm h]

theorem sumVals_countStatuses_from (l : List Task) :
    ∀ m : List (String × Nat),
      ((l.foldl (fun m t => bump m t.status) m).map Prod.snd).sum =
        (m.map Prod.snd).sum + l.length := by
  induction l with
  | nil => simp
  | cons t ts ih =>
    intro m
    simp only [List.foldl_cons, List.length_cons]
    rw [ih (bump m t.status), sumVals_bump]
    omega

theorem count_countStatuses_from (l : List Task) (stat : String) :
    ∀ m : List (String × Nat),
      (lookupKV (l.foldl (fun m t => bump m t.status) m) stat).getD 0 =
        (lookupKV m stat).getD 0 +
          (l.filter (fun t => t.status == stat)).length := by
  induction l with
  | nil => simp
  | cons t ts ih =>
    intro m
    simp only [List.foldl_cons, List.filter_cons]
    by_cases hts : t.status = stat
    · rw [ih (bump m t.status), hts, lookupKV_bump_self]
      simp only [hts, beq_self_eq_true, if_true, List.length_cons]
      omega
    · rw [ih (bump m t.status), lookupKV_bump_ne _ _ _ (Ne.symm hts)]
      have : (t.status == stat) = false := beq_eq_false_iff_ne.mpr hts
      simp [this]

/-- C5: whenever `get_task_status` answers, its per-status counts are the
true per-status tallies of the returned checks, the counts sum to the number
of checks, and the `completed` flag is true exactly when every returned check
is counted completed; when neither a prefix-matching sub-task nor a task with
the exact id exists it fails with 404 (and 404 is the only failure). -/
theorem get_task_status_aggregation (st : RedisState) (tid : String) :
    (∀ resp, get_task_status st tid = .ok resp →
      (resp.status_summary.map Prod.snd).sum = resp.checks.length ∧
      (∀ stat, (lookupKV resp.status_summary stat).getD 0 =
        (resp.checks.filter (fun t => t.status == stat)).length) ∧
      (resp.completed = true ↔
        (resp.checks.filter (fun t => t.status == "completed")).length =
          resp.checks.length)) ∧
    (get_task_status st tid = .error 404 ↔
      scan_sub_tasks st tid = [] ∧ lookupKV st.tasks tid = none) ∧
    (∀ e, get_task_status st tid = .error e → e = 404) := by
  simp only [get_task_status]
  by_cases hemp : (scan_sub_tasks st tid).isEmpty = true
  · have hnil : scan_sub_tasks st tid = [] := List.isEmpty_iff.mp hemp
    rw [hemp]
    simp only [if_true]
    cases hl : lookupKV st.tasks tid with
    | some mt =>
      refine ⟨?_, ?_, ?_⟩
      · intro resp hresp
        obtain rfl : _ = resp := Except.ok.inj hresp
        refine ⟨by simp, ?_, ?_⟩
        · intro stat
          by_cases h : mt.status = stat
          · simp [lookupKV, h]
          · have hb : (mt.status == stat) = false := beq_eq_false_iff_ne.mpr h
            simp [lookupKV, h, hb]
        · by_cases h : mt.status = "completed"
          · simp [h]
          · have hb : (mt.status == "completed") = false := beq_eq_false_iff_ne.mpr h
            simp [hb]
      · constructor
        · intro hh
          exact absurd hh (by simp)
        · intro hh
          exact absurd hh.2 (by simp)
      · intro e he
        exact absurd he (by simp)
    | none =>
      refine ⟨?_, ?_, ?_⟩
      · intro resp hresp
        exact absurd hresp (by simp)
      · exact ⟨fun _ => ⟨hnil, rfl⟩, fun _ => rfl⟩
      · intro e he
        exact (Except.error.inj he).symm
  · rw [Bool.not_eq_true] at hemp
    rw [hemp]
    simp only [Bool.false_eq_true, if_false]
    refine ⟨?_, ?_, ?_⟩
    · intro resp hresp
      obtain rfl : _ = resp := Except.ok.inj hresp
      refine ⟨?_, ?_, ?_⟩
      · unfold countStatuses
        simpa using sumVals_countStatuses_from (scan_sub_tasks st tid) []
      · intro stat
        have hc := count_countStatuses_from (scan_sub_tasks st tid) stat []
        simp only [lookupKV, Option.getD_none, Nat.zero_add] at hc
        unfold countStatuses
        exact hc
      · have hc := count_countStatuses_from (scan_sub_tasks st tid) "completed" []
        simp only [lookupKV, Option.getD_none, Nat.zero_add] at hc
        unfold countStatuses
        rw [beq_iff_eq, hc]
    · constructor
      · intro hh
        exact absurd hh (by simp)
      · intro hh
        exact absurd hh.1 (by
          intro h2
          rw [h2] at hemp
          simp [List.isEmpty] at hemp)
    · intro e he
      exact absurd he (by simp)

/-- Concrete instantiation of `get_task_status_aggregation`: the freshly
fanned-out parent aggregates to 10 pending checks and is not completed, and
an unknown id yields 404. -/
theorem get_task_status_aggregation_witness :
    (∀ resp,
      get_task_status
        (match create_task { tasks := [], queues := [] } "example.com" "ru" "T" 0 with
         | .ok p => p.2
         | .error _ => { tasks := [], queues := [] }) "T" = .ok resp →
      (resp.status_summary.map Prod.snd).sum = resp.checks.length ∧
      (∀ stat, (lookupKV resp.status_summary stat).getD 0 =
        (resp.checks.filter (fun t => t.status == stat)).length) ∧
      (resp.completed = true ↔
        (resp.checks.filter (fun t => t.status == "completed")).length =
          resp.checks.length)) ∧
    (get_task_status { tasks := [], queues := [] } "ZZZ" = .error 404 ↔
      scan_sub_tasks { tasks := [], queues := [] } "ZZZ" = [] ∧
      lookupKV ({ tasks := [], queues := [] } : RedisState).tasks "ZZZ" = none) :=
  ⟨(get_task_status_aggregation _ "T").1,
   (get_task_status_aggregation { tasks := [], queues := [] } "ZZZ").2.1⟩

/-! ### C6: sub-task status monotonicity -/

/-- Position of a status along the lifecycle
`pending → assigned → {completed | failed}`. -/
def statusRank (s : String) : Nat :=
  if s = "pending" then 0 else if s = "assigned" then 1 else 2

/-- Lifecycle order between two versions of a task record. -/
def rankLE (t u : Task) : Prop := statusRank t.status ≤ statusRank u.status

theorem statusRank_le_two (s : String) : statusRank s ≤ 2 := by
  unfold statusRank
  split
  · omega
  · split <;> omega

theorem rankLE_trans {l1 l2 l3 : List Task}
    (h1 : List.Forall₂ rankLE l1 l2) (h2 : List.Forall₂ rankLE l2 l3) :
    List.Forall₂ rankLE l1 l3 := by
  induction h1 generalizing l3 with
  | nil =>
    cases h2
    exact List.Forall₂.nil
  | cons h hs ih =>
    cases h2 with
    | cons h' hs' =>
      exact List.Forall₂.cons (le_trans h h') (ih hs')

theorem rankLE_refl (l : List Task) : List.Forall₂ rankLE l l :=
  List.forall₂_same.mpr (fun _ _ => le_refl _)

theorem forall₂_uts_completed (q : List Task) (tid : String) (aid : Option String) :
    List.Forall₂ rankLE q (update_task_status q tid "completed" aid) := by
  induction q with
  | nil => exact List.Forall₂.nil
  | cons t ts ih =>
    by_cases ht : t.id = tid
    · simp only [update_task_status, ht, if_pos rfl]
      refine List.Forall₂.cons ?_ (rankLE_refl ts)
      unfold rankLE
      rw [applyAssign_status]
      exact statusRank_le_two _
    · simp only [update_task_status, ht, if_false]
      exact List.Forall₂.cons (le_refl _) ih

theorem poll_queue_monotone (s : AgState) (aid tok : String) (now : Nat)
    (hnd : (s.tasks_queue.map Task.id).Nodup) :
    List.Forall₂ rankLE s.tasks_queue (get_pending_task s aid tok now).2.tasks_queue := by
  unfold get_pending_task
  split
  · split
    · exact rankLE_refl _
    · rename_i a ha
      split
      · exact rankLE_refl _
      · split
        · exact rankLE_refl _
        · split
          · rename_i t ht
            simp only
            obtain ⟨pre, post, hq, hpre, hel⟩ := gptfa_some_split ht
            have hidpre : t.id ∉ pre.map Task.id := by
              intro hmem
              rw [hq] at hnd
              simp only [List.map_append, List.map_cons] at hnd
              exact (List.nodup_append.mp hnd).2.2 hmem (List.mem_cons_self _ _)
            rw [hq, update_task_status_split hidpre]
            refine List.rel_append (rankLE_refl pre) ?_
            refine List.Forall₂.cons ?_ (rankLE_refl post)
            unfold rankLE
            rw [applyAssign_status]
            have hp : t.status = "pending" := ((taskEligible_iff _ _).mp hel).1
            simp [statusRank, hp]
          · exact rankLE_refl _
  · exact rankLE_refl _

theorem submit_queue_monotone (s : AgState) (tid aid tok : String) (r : ResultData) :
    List.Forall₂ rankLE s.tasks_queue (submit_result s tid aid tok r).2.tasks_queue := by
  unfold submit_result
  split
  · exact forall₂_uts_completed _ _ _
  · exact rankLE_refl _

theorem poll_queue_map_id (s : AgState) (aid tok : String) (now : Nat) :
    (get_pending_task s aid tok now).2.tasks_queue.map Task.id =
      s.tasks_queue.map Task.id := by
  unfold get_pending_task
  split
  · split
    · rfl
    · split
      · rfl
      · split
        · rfl
        · split
          · exact update_task_status_map_id _ _ _ _
          · rfl
  · rfl

theorem submit_queue_map_id (s : AgState) (tid aid tok : String) (r : ResultData) :
    (submit_result s tid aid tok r).2.tasks_queue.map Task.id =
      s.tasks_queue.map Task.id := by
  unfold submit_result
  split
  · exact update_task_status_map_id _ _ _ _
  · rfl

/-- C6: along every sequence of `PollTask` and `SubmitResult` calls over a
queue with distinct sub-task ids (the fan-out guarantee), the queue keeps the
same ids in the same positions and each sub-task's status only ever moves
forward along `pending → assigned → {completed | failed}` — in particular
never `assigned → pending`, never `completed → assigned`, never
`completed → pending`. -/
theorem subtask_status_monotone (s : AgState) (ops : List AOp)
    (hnd : (s.tasks_queue.map Task.id).Nodup)
    (hps : ∀ op ∈ ops, isPollOrSubmit op = true) :
    (runOps s ops).tasks_queue.map Task.id = s.tasks_queue.map Task.id ∧
    List.Forall₂ rankLE s.tasks_queue (runOps s ops).tasks_queue := by
  induction ops generalizing s with
  | nil => exact ⟨rfl, rankLE_refl _⟩
  | cons op rest ih =>
    have hop : isPollOrSubmit op = true := hps op (List.mem_cons_self _ _)
    have hrest : ∀ o ∈ rest, isPollOrSubmit o = true :=
      fun o ho => hps o (List.mem_cons_of_mem _ ho)
    have hstep : (stepOp s op).tasks_queue.map Task.id = s.tasks_queue.map Task.id ∧
        List.Forall₂ rankLE s.tasks_queue (stepOp s op).tasks_queue := by
      cases op with
      | poll aid tok now =>
        exact ⟨poll_queue_map_id s aid tok now, poll_queue_monotone s aid tok now hnd⟩
      | submit tid aid tok r =>
        exact ⟨submit_queue_map_id s tid aid tok r,
               submit_queue_monotone s tid aid tok r⟩
      | createAgent st aid atok name caps now => simp [isPollOrSubmit] at hop
      | assignTask t st => simp [isPollOrSubmit] at hop
      | heartbeat aid tok now => simp [isPollOrSubmit] at hop
      | stopAgent aid st => simp [isPollOrSubmit] at hop
    have hnd' : ((stepOp s op).tasks_queue.map Task.id).Nodup := by
      rw [hstep.1]; exact hnd
    obtain ⟨hmap, hmono⟩ := ih (stepOp s op) hnd' hrest
    have hrun : runOps s (op :: rest) = runOps (stepOp s op) rest := rfl
    rw [hrun]
    exact ⟨by rw [hmap, hstep.1], rankLE_trans hstep.2 hmono⟩

/-- Concrete instantiation of `subtask_status_monotone`. -/
theorem subtask_status_monotone_witness :
    (runOps wState [.poll "a1" "tok1" 1, .submit "x1" "a1" "tok1" wRes]).tasks_queue.map
      Task.id = wState.tasks_queue.map Task.id ∧
    List.Forall₂ rankLE wState.tasks_queue
      (runOps wState [.poll "a1" "tok1" 1,
        .submit "x1" "a1" "tok1" wRes]).tasks_queue :=
  subtask_status_monotone wState [.poll "a1" "tok1" 1, .submit "x1" "a1" "tok1" wRes]
    (by decide) (by decide)

/-! ### C7: liveness sweep -/

theorem eraseKV_keys_nodup {α : Type} {m : List (String × α)} (k : String)
    (hnd : (m.map Prod.fst).Nodup) : ((eraseKV m k).map Prod.fst).Nodup :=
  hnd.sublist ((eraseKV_sublist m k).map Prod.fst)

theorem cleanup_loop_preserved {aid : String} {ids : List String}
    (h : aid ∉ ids) : ∀ (st : MainState),
    lookupKV (cleanup_loop st ids).redisAgents aid = lookupKV st.redisAgents aid ∧
    lookupKV (cleanup_loop st ids).activeAgents aid = lookupKV st.activeAgents aid ∧
    (aid ∈ (cleanup_loop st ids).activeSet → aid ∈ st.activeSet) := by
  induction ids with
  | nil => exact fun st => ⟨rfl, rfl, id⟩
  | cons x rest ih =>
    intro st
    simp only [List.mem_cons, not_or] at h
    simp only [cleanup_loop]
    cases hx : lookupKV st.activeAgents x with
    | none => exact ⟨rfl, rfl, id⟩
    | some b =>
      obtain ⟨h1, h2, h3⟩ := ih h.2
        { activeAgents := eraseKV st.activeAgents x,
          redisAgents := setKV st.redisAgents x { b with status := "offline" },
          activeSet := st.activeSet.filter (fun y => y ≠ x) }
      refine ⟨?_, ?_, ?_⟩
      · rw [h1]
        exact lookupKV_setKV_ne _ _ _ _ h.1
      · rw [h2]
        exact lookupKV_eraseKV_ne _ _ _ h.1
      · intro hmem
        exact (List.mem_filter.mp (h3 hmem)).1

theorem cleanup_loop_kills {ids : List String} :
    ∀ (st : MainState) (aid : String) (a : MSAgent),
    (st.activeAgents.map Prod.fst).Nodup →
    ids.Nodup →
    (∀ x ∈ ids, ∃ b, lookupKV st.activeAgents x = some b) →
    aid ∈ ids →
    lookupKV st.activeAgents aid = some a →
    lookupKV (cleanup_loop st ids).redisAgents aid =
      some { a with status := "offline" } ∧
    aid ∉ (cleanup_loop st ids).activeSet ∧
    lookupKV (cleanup_loop st ids).activeAgents aid = none := by
  induction ids with
  | nil => intro st aid a _ _ _ hmem; simp at hmem
  | cons x rest ih =>
    intro st aid a hnd hids hall hmem ha
    simp only [List.nodup_cons] at hids
    rcases List.mem_cons.mp hmem with hax | hax
    · subst hax
      simp only [cleanup_loop, ha]
      set st1 : MainState :=
        { activeAgents := eraseKV st.activeAgents aid,
          redisAgents := setKV st.redisAgents aid { a with status := "offline" },
          activeSet := st.activeSet.filter (fun y => y ≠ aid) } with hst1
      obtain ⟨h1, h2, h3⟩ := cleanup_loop_preserved hids.1 st1
      refine ⟨?_, ?_, ?_⟩
      · rw [h1, hst1]
        exact lookupKV_setKV_self _ _ _
      · intro hmem2
        have := h3 hmem2
        rw [hst1] at this
        have := List.mem_filter.mp this
        simp at this
      · rw [h2, hst1]
        exact lookupKV_eraseKV_self _ _ hnd
    · have hxne : x ≠ aid := by
        intro hh
        subst hh
        exact hids.1 hax
      obtain ⟨b, hb⟩ := hall x (List.mem_cons_self _ _)
      simp only [cleanup_loop, hb]
      apply ih
      · exact eraseKV_keys_nodup x hnd
      · exact hids.2
      · intro y hy
        obtain ⟨c, hc⟩ := hall y (List.mem_cons_of_mem _ hy)
        have hyne : y ≠ x := by
          intro hh
          subst hh
          exact hids.1 hy
        refine ⟨c, ?_⟩
        rw [lookupKV_eraseKV_ne _ _ _ hyne]
        exact hc
      · exact hax
      · rw [lookupKV_eraseKV_ne _ _ _ (Ne.symm hxne)]
        exact ha

/-- C7: a liveness-sweep cycle marks every agent whose heartbeat is older
than `HEARTBEAT_TIMEOUT` offline in the store and removes it from the
active-agent index and in-memory dict; and a poll for an agent whose status
is not `"online"` returns the in-band `offline` status without assigning
anything. -/
theorem stale_agent_sweep_offline (st : MainState) (now : Int) (aid : String)
    (a : MSAgent)
    (hnd : (st.activeAgents.map Prod.fst).Nodup)
    (ha : lookupKV st.activeAgents aid = some a)
    (hstale : now - a.last_heartbeat > HEARTBEAT_TIMEOUT) :
    (lookupKV (cleanup_dead_agents st now).redisAgents aid =
       some { a with status := "offline" } ∧
     aid ∉ (cleanup_dead_agents st now).activeSet ∧
     lookupKV (cleanup_dead_agents st now).activeAgents aid = none) ∧
    (∀ (s : AgState) (aid' tok : String) (now' : Nat) (b : Agent),
      verify_agent s aid' tok = true →
      lookupKV s.agents_db aid' = some b →
      b.status ≠ "online" →
      get_pending_task s aid' tok now' = (.offline, s)) := by
  constructor
  · unfold cleanup_dead_agents
    apply cleanup_loop_kills st aid a hnd
    · exact (hnd.sublist
        ((List.filter_sublist st.activeAgents).map Prod.fst))
    · intro y hy
      obtain ⟨p, hp, hpy⟩ := List.mem_map.mp hy
      have hp2 : p ∈ st.activeAgents := (List.mem_filter.mp hp).1
      exact ⟨p.2, mem_lookupKV_nodup hnd (by rw [← hpy]; exact hp2)⟩
    · unfold cleanup_collect
      refine List.mem_map.mpr ⟨(aid, a), ?_, rfl⟩
      refine List.mem_filter.mpr ⟨lookupKV_some_mem ha, ?_⟩
      exact decide_eq_true hstale
    · exact ha
  · intro s aid' tok now' b hv hb hoff
    unfold get_pending_task
    rw [hv, hb]
    have : (b.status != "online") = true := bne_iff_ne.mpr hoff
    simp [this]

/-- A concrete main-server agent with a stale heartbeat. -/
def wMSAgent : MSAgent :=
  { id := "m1", name := "RU-1", location := "ru", capabilities := ["http"],
    token := "mtok", status := "online", last_heartbeat := 0, active_tasks := 0,
    total_tasks := 0, created_at := 0 }

/-- A concrete main-server state holding only the stale agent. -/
def wMainState : MainState :=
  { activeAgents := [("m1", wMSAgent)], redisAgents := [("m1", wMSAgent)],
    activeSet := ["m1"] }

/-- A concrete agent-server state whose agent is offline. -/
def wOfflineState : AgState :=
  { agents_db := [("a1", { wAgent with status := "offline" })],
    tasks_queue := [wTask "x1" "http"], task_results := [] }

/-- Concrete instantiation of `stale_agent_sweep_offline`: at `now = 301`
(heartbeat age 301 > 300) the sweep demotes the agent, and polling an
offline agent answers `offline`. -/
theorem stale_agent_sweep_offline_witness :
    (lookupKV (cleanup_dead_agents wMainState 301).redisAgents "m1" =
       some { wMSAgent with status := "offline" } ∧
     "m1" ∉ (cleanup_dead_agents wMainState 301).activeSet ∧
     lookupKV (cleanup_dead_agents wMainState 301).activeAgents "m1" = none) ∧
    get_pending_task wOfflineState "a1" "tok1" 5 = (.offline, wOfflineState) := by
  obtain ⟨h1, h2⟩ := stale_agent_sweep_offline wMainState 301 "m1" wMSAgent
    (by decide) (by decide) (by decide)
  exact ⟨h1, h2 wOfflineState "a1" "tok1" 5 { wAgent with status := "offline" }
    (by decide) (by decide) (by decide)⟩

/-! ### C8: no double assignment -/

/-- Inversion of a successful poll: a returned task means every gate passed,
the scan hit, and the returned record carries the found task's id and check
type. -/
theorem poll_task_inversion {s : AgState} {aid tok : String} {now : Nat} {u : Task}
    (h : (get_pending_task s aid tok now).1 = .task u) :
    ∃ a t, verify_agent s aid tok = true ∧
      lookupKV s.agents_db aid = some a ∧
      a.status = "online" ∧
      a.current_tasks < a.max_tasks ∧
      get_pending_task_for_agent a.capabilities s.tasks_queue = some t ∧
      u.id = t.id ∧
      u.check_type = t.check_type := by
  unfold get_pending_task at h
  split at h
  · rename_i hv
    split at h
    · simp at h
    · rename_i a ha
      split at h
      · simp at h
      · rename_i hst
        split at h
        · simp at h
        · rename_i hcap
          split at h
          · rename_i t ht
            simp only at h
            have hret := PollRes.task.inj h
            have hon : a.status = "online" := by
              rw [Bool.not_eq_true] at hst
              exact bne_eq_false_iff_eq.mp hst
            refine ⟨a, t, hv, ha, hon, not_le.mp hcap, ht, ?_, ?_⟩
            · rw [← hret]
              split
              · rfl
              · exact applyAssign_id _ _ _
            · rw [← hret]
              split
              · rfl
              · exact applyAssign_check_type _ _ _
          · simp at h
  · simp at h

/-- C8: the scan-and-assign step never hands the same sub-task to two
pollers.  FastAPI runs these handlers on a single event loop and the
scan-and-assign section contains no suspension point, so two concurrent
`PollTask` calls execute in some serial order; in either order, over a queue
with distinct sub-task ids, the two returned sub-task ids differ. -/
theorem concurrent_polls_distinct_tasks (s : AgState)
    (aid1 tok1 aid2 tok2 : String) (n1 n2 : Nat)
    (hnd : (s.tasks_queue.map Task.id).Nodup) (u1 u2 : Task)
    (h1 : (get_pending_task s aid1 tok1 n1).1 = .task u1)
    (h2 : (get_pending_task (get_pending_task s aid1 tok1 n1).2 aid2 tok2 n2).1 =
      .task u2) :
    u1.id ≠ u2.id := by
  obtain ⟨a1, t1, hv1, ha1, hon1, hcap1, ht1, hid1, _⟩ := poll_task_inversion h1
  obtain ⟨a2, t2, hv2, ha2, hon2, hcap2, ht2, hid2, _⟩ := poll_task_inversion h2
  have hst1 := get_pending_task_unfold s aid1 tok1 n1 a1 hv1 ha1 hon1 hcap1
  obtain ⟨pre, post, hq, hpre, hel⟩ := gptfa_some_split ht1
  have hidpre : t1.id ∉ pre.map Task.id := by
    intro hmem
    have hnd' := hnd
    rw [hq] at hnd'
    simp only [List.map_append, List.map_cons] at hnd'
    exact (List.nodup_append.mp hnd').2.2 hmem (List.mem_cons_self _ _)
  have hq1 : (get_pending_task s aid1 tok1 n1).2.tasks_queue =
      pre ++ applyAssign t1 "assigned" (some aid1) :: post := by
    rw [hst1, ht1]
    simp only
    rw [hq, update_task_status_split hidpre]
  obtain ⟨pre2, post2, hq2, hpre2, hel2⟩ := gptfa_some_split ht2
  have ht2mem : t2 ∈ (get_pending_task s aid1 tok1 n1).2.tasks_queue := by
    rw [hq2]
    exact List.mem_append_right _ (List.mem_cons_self _ _)
  have ht1mem : applyAssign t1 "assigned" (some aid1) ∈
      (get_pending_task s aid1 tok1 n1).2.tasks_queue := by
    rw [hq1]
    exact List.mem_append_right _ (List.mem_cons_self _ _)
  have hnd1 : ((get_pending_task s aid1 tok1 n1).2.tasks_queue.map Task.id).Nodup := by
    rw [poll_queue_map_id]
    exact hnd
  intro heq
  have hideq : (applyAssign t1 "assigned" (some aid1)).id = t2.id := by
    rw [applyAssign_id, ← hid1, heq, hid2]
  have hsame := mem_eq_of_id_nodup hnd1 ht1mem ht2mem hideq
  have hp2 : t2.status = "pending" := ((taskEligible_iff _ _).mp hel2).1
  rw [← hsame] at hp2
  simp [applyAssign] at hp2

/-- A second concrete agent. -/
def wAgent2 : Agent := create_agent_record "a2" "tok2" "Agent-2" none 0

/-- A concrete state with two agents and two pending sub-tasks. -/
def wTwoAgentState : AgState :=
  { agents_db := [("a1", wAgent), ("a2", wAgent2)],
    tasks_queue := [wTask "x1" "http", wTask "x2" "ping"],
    task_results := [] }

/-- Concrete instantiation of `concurrent_polls_distinct_tasks`: the two
serialized polls return sub-tasks `x1` and `x2`, whose ids differ. -/
theorem concurrent_polls_distinct_tasks_witness :
    ({ (wTask "x1" "http") with status := "assigned",
                                assigned_agent := some "a1" } : Task).id ≠
    ({ (wTask "x2" "ping") with status := "assigned",
                                assigned_agent := some "a2" } : Task).id :=
  concurrent_polls_distinct_tasks wTwoAgentState "a1" "tok1" "a2" "tok2" 1 2
    (by decide) _ _ (by decide) (by decide)

/-! ### C9: default capabilities never cover 7 of the 10 catalog types -/

theorem default_caps_inter_catalog {ct : String}
    (h1 : ct ∈ DEFAULT_CAPABILITIES) (h2 : ct ∈ all_check_types) :
    ct ∈ ["http", "ping", "tcp"] ∧
    ct ∉ ["https", "traceroute", "dns_a", "dns_aaaa", "dns_mx", "dns_ns",
          "dns_txt"] := by
  simp only [DEFAULT_CAPABILITIES, List.mem_cons, List.not_mem_nil, or_false] at h1
  rcases h1 with rfl | rfl | rfl | rfl
  · exact ⟨by decide, by decide⟩
  · exact ⟨by decide, by decide⟩
  · exact ⟨by decide, by decide⟩
  · exact absurd h2 (by decide)

/-- C9: capability matching is verbatim string membership, so an agent
created with the default capability set `["http", "ping", "tcp", "dns"]`
only ever receives sub-tasks whose catalog check type is `http`, `ping` or
`tcp`, and never `https`, `traceroute` or any `dns_*` sub-type (the generic
`"dns"` capability matches no catalog type). -/
theorem default_caps_eligibility (s : AgState) (aid tok : String) (now : Nat)
    (a : Agent) (u : Task)
    (ha : lookupKV s.agents_db aid = some a)
    (hcaps : a.capabilities = DEFAULT_CAPABILITIES)
    (hcat : ∀ t ∈ s.tasks_queue, t.check_type ∈ all_check_types)
    (h : (get_pending_task s aid tok now).1 = .task u) :
    u.check_type ∈ ["http", "ping", "tcp"] ∧
    u.check_type ∉ ["https", "traceroute", "dns_a", "dns_aaaa", "dns_mx",
                    "dns_ns", "dns_txt"] := by
  obtain ⟨a', t, hv, ha', hon, hcap, ht, hid, hct⟩ := poll_task_inversion h
  obtain rfl : a' = a := Option.some.inj (ha' ▸ ha)
  obtain ⟨pre, post, hq, hpre, hel⟩ := gptfa_some_split ht
  have hin : t.check_type ∈ DEFAULT_CAPABILITIES := by
    rw [← hcaps]
    exact ((taskEligible_iff _ _).mp hel).2
  have hmem : t ∈ s.tasks_queue := by
    rw [hq]
    exact List.mem_append_right _ (List.mem_cons_self _ _)
  rw [hct]
  exact default_caps_inter_catalog hin (hcat t hmem)

/-- Concrete instantiation of `default_caps_eligibility`. -/
theorem default_caps_eligibility_witness :
    (({ (wTask "x1" "http") with status := "assigned",
                                 assigned_agent := some "a1" } : Task).check_type ∈
      ["http", "ping", "tcp"]) ∧
    (({ (wTask "x1" "http") with status := "assigned",
                                 assigned_agent := some "a1" } : Task).check_type ∉
      ["https", "traceroute", "dns_a", "dns_aaaa", "dns_mx", "dns_ns",
       "dns_txt"]) :=
  default_caps_eligibility wState "a1" "tok1" 7 wAgent _ (by decide) (by decide)
    (by decide) (by decide)

/-! ### C10: result submission for an unknown sub-task id -/

/-- C10: `submit_result` with valid credentials never fails with `NotFound`:
for a task id matching no queue entry it still succeeds, the status update is
a silent no-op on the queue, the result is stored under the unknown id, and
the agent's `current_tasks` is still decremented (floored at 0). -/
theorem submit_result_unknown_id_noop (s : AgState) (tid aid tok : String)
    (r : ResultData) (a : Agent)
    (hv : verify_agent s aid tok = true)
    (ha : lookupKV s.agents_db aid = some a)
    (hunk : tid ∉ s.tasks_queue.map Task.id) :
    (submit_result s tid aid tok r).1 = .success ∧
    (submit_result s tid aid tok r).2.tasks_queue = s.tasks_queue ∧
    lookupKV (submit_result s tid aid tok r).2.task_results tid = some r ∧
    lookupKV (submit_result s tid aid tok r).2.agents_db aid =
      some { a with current_tasks := max 0 (a.current_tasks - 1) } := by
  have hs := submit_result_unfold s tid aid tok r hv
  refine ⟨by rw [hs], ?_, ?_, ?_⟩
  · rw [hs]
    simp only
    exact update_task_status_not_mem hunk _ _
  · rw [hs]
    simp only
    exact lookupKV_setKV_self _ _ _
  · rw [hs]
    simp only
    rw [lookupKV_updFirst_self, ha]
    rfl

/-- Concrete instantiation of `submit_result_unknown_id_noop`: id `zzz`
matches no sub-task, yet the submission succeeds, stores the result and
decrements the load (here floored at 0). -/
theorem submit_result_unknown_id_noop_witness :
    (submit_result wState "zzz" "a1" "tok1" wRes).1 = .success ∧
    (submit_result wState "zzz" "a1" "tok1" wRes).2.tasks_queue =
      wState.tasks_queue ∧
    lookupKV (submit_result wState "zzz" "a1" "tok1" wRes).2.task_results "zzz" =
      some wRes ∧
    lookupKV (submit_result wState "zzz" "a1" "tok1" wRes).2.agents_db "a1" =
      some { wAgent with current_tasks := max 0 (wAgent.current_tasks - 1) } :=
  submit_result_unknown_id_noop wState "zzz" "a1" "tok1" wRes wAgent
    (by decide) (by decide) (by decide)

end NetPulse
